import Mathlib

/-!
Verification development for the multi-threaded index test fixture
(index_fixture_multi_thread.hpp, class IndexMultiThreadFixture).

Embedding conventions.
The fixture is parameterized by the constants kThreadNum and kExecNum; they
appear here as explicit arguments `T` and `E`.  Keys and payloads are produced
by the external PrepareTestData collaborator as sequences of pairwise distinct
values, and the external comparators KeyComp / PayComp decide equality and a
strict order on them; we therefore model the value keys_.at(i) by the index i
itself and the value payloads_.at(j) by the index j, with Nat equality and the
Nat order standing for IsEqual and the comparators.  The mt19937_64 engine
seeded with kRandomSeed is modelled by an arbitrary deterministic draw stream
(a pure function from draw position to a natural number); every statement
proved about shuffled sequences holds for every stream, hence for the stream
the engine actually produces.  The result of an index operation is modelled by
a function from key id to result code or optional payload, and the sequence a
Scan call yields is modelled by a list of (key id, payload id) pairs, so that
the oracle code can be stated over arbitrary behavior of the system under
test.  Worker bodies are additionally reflected as event traces (lists of
`Ev`) recording, in program order, the id-sequence construction, the wait on
the shared ready flag, and each operation issued against the index or the
epoch manager.
-/

namespace IndexFixture

/-- Ids pushed by the ascending branch of CreateTargetIDs(w_id, pattern):
the loop for i = 1..kExecNum pushes kThreadNum * i + w_id, so the element at
position k (0-based) is T * (k + 1) + w. -/
def ascendingIDs (T E w : Nat) : List Nat :=
  (List.range E).map (fun k => T * (k + 1) + w)

/-- Ids pushed by the kReverse branch of CreateTargetIDs(w_id, pattern):
the loop for i = kExecNum down to 1 pushes kThreadNum * i + w_id, so the
element at position k (0-based) is T * (E - k) + w. -/
def descendingIDs (T E w : Nat) : List Nat :=
  (List.range E).map (fun k => T * (E - k) + w)

/-- Remove the element at position j from a list, returning it together with
the remaining elements in their original order. -/
def extractAt : Nat → List α → Option (α × List α)
  | _, [] => none
  | 0, x :: xs => some (x, xs)
  | j + 1, x :: xs => (extractAt j xs).map (fun p => (p.1, x :: p.2))

/-- Selection-based shuffle driven by the deterministic draw stream `rand`,
modelling std::shuffle over the fixed-seed mt19937_64 engine: at each step the
draw picks a position among the remaining elements, and the picked element is
emitted next.  The fuel equals the list length at the top-level call. -/
def shuffleFuel (rand : Nat → Nat) : Nat → Nat → List α → List α
  | 0, _, l => l
  | _ + 1, _, [] => []
  | fuel + 1, step, x :: xs =>
    match extractAt (rand step % (x :: xs).length) (x :: xs) with
    | none => x :: xs
    | some (y, rest) => y :: shuffleFuel rand fuel (step + 1) rest

/-- Model of std::shuffle(target_ids.begin(), target_ids.end(), engine). -/
def shuffle (rand : Nat → Nat) (l : List α) : List α :=
  shuffleFuel rand l.length 0 l

/-- Access patterns of the fixture (common.hpp: kSequential, kReverse,
kRandom). -/
inductive AccessPattern where
  | sequential : AccessPattern
  | reverse : AccessPattern
  | random : AccessPattern
deriving DecidableEq

/-- Write operation selector of the fixture (common.hpp: kWrite, kInsert,
kUpdate, kDelete, kWithoutWrite). -/
inductive WriteOperation where
  | write : WriteOperation
  | insert : WriteOperation
  | update : WriteOperation
  | delete : WriteOperation
  | withoutWrite : WriteOperation
deriving DecidableEq

/-- CreateTargetIDs(w_id, pattern): the kReverse branch builds the descending
sequence, every other pattern builds the ascending one, and kRandom then
shuffles the ascending sequence with the fixed-seed engine. -/
def createTargetIDs (T E : Nat) (rand : Nat → Nat) (w : Nat) :
    AccessPattern → List Nat
  | .sequential => ascendingIDs T E w
  | .reverse => descendingIDs T E w
  | .random => shuffle rand (ascendingIDs T E w)

/-- CreateTargetIDs(rec_num): the flat sequence 0, 1, ..., rec_num - 1. -/
def createFlatIDs (recNum : Nat) : List Nat := List.range recNum

/-- CreateTargetIDsForConcurrentSMOs: kExecNum draws of
kThreadNum * execDist(rng) + threadDist(rng) where execDist is uniform on
[1, kExecNum] and threadDist is uniform on [0, kThreadNum / 2 - 1]; the two
distribution outputs at step i are modelled by the streams r1 and r2 reduced
to the respective ranges. -/
def createTargetIDsForConcurrentSMOs (T E : Nat) (r1 r2 : Nat → Nat) :
    List Nat :=
  (List.range E).map (fun i => T * (1 + r1 i % E) + r2 i % (T / 2))

/-- Expected payloads_ index for a verified key id: val_id in VerifyScan is
key_id % kThreadNum + kThreadNum after an update and key_id % kThreadNum
otherwise. -/
def expectedValId (T : Nat) (isUpdate : Bool) (keyId : Nat) : Nat :=
  if isUpdate then keyId % T + T else keyId % T

/-- Loop of the scan verification in VerifyScan: for each yielded
(key, payload) pair the oracle records whether the key equals keys_.at(cursor)
and the payload equals payloads_.at(val_id), then advances the cursor; the
result is the conjunction of all recorded checks together with the final
cursor value. -/
def scanLoopCheck (T : Nat) (isUpdate : Bool) :
    Nat → List (Nat × Nat) → Bool × Nat
  | cursor, [] => (true, cursor)
  | cursor, e :: rest =>
    ((decide (e.1 = cursor) && decide (e.2 = expectedValId T isUpdate cursor))
        && (scanLoopCheck T isUpdate (cursor + 1) rest).1,
      (scanLoopCheck T isUpdate (cursor + 1) rest).2)

/-- Worker body of VerifyScan applied to the sequence yielded by the Scan
call: with expect_success the loop checks run, followed by
EXPECT_EQ(begin_id, end_id) on the final cursor (the trailing
EXPECT_FALSE(iter) then sees an already exhausted iterator); without
expect_success only EXPECT_FALSE(iter) runs, which passes exactly when the
sequence yields nothing. -/
def verifyScanWorker (T : Nat) (expectSuccess isUpdate : Bool)
    (beginId endId : Nat) (seq : List (Nat × Nat)) : Bool :=
  if expectSuccess then
    (scanLoopCheck T isUpdate beginId seq).1
      && decide ((scanLoopCheck T isUpdate beginId seq).2 = endId)
  else
    seq.isEmpty

/-- Scan range start in VerifyScan: begin_id = kThreadNum + kExecNum * w_id. -/
def scanBeginId (T E w : Nat) : Nat := T + E * w

/-- Scan range end in VerifyScan: end_id = kExecNum * (w_id + 1). -/
def scanEndId (E w : Nat) : Nat := E * (w + 1)

/-- Sequence of n consecutive (key id, payload id) pairs starting at cursor c,
each key paired with its expected payload index. -/
def expectedFrom (T : Nat) (isUpdate : Bool) (c n : Nat) : List (Nat × Nat) :=
  (List.range n).map (fun j => (c + j, expectedValId T isUpdate (c + j)))

/-- Sequence of (key id, payload id) pairs the scan oracle accepts for the
range from begin_id to end_id. -/
def expectedScanSeq (T : Nat) (isUpdate : Bool) (beginId endId : Nat) :
    List (Nat × Nat) :=
  expectedFrom T isUpdate beginId (endId - beginId)

/-- Worker body of VerifyRead over its id sequence, with the behavior of the
index modelled by readRes.  ASSERT_TRUE(read_val) is a fatal assertion: when a
read under expect_success comes back empty, the failure is recorded and the
lambda returns, skipping the remaining ids.  The EXPECT checks merely record
their outcome and continue.  The returned list holds one recorded outcome per
id actually checked. -/
def verifyReadWorker (T : Nat) (expectSuccess isUpdate : Bool) (w : Nat)
    (readRes : Nat → Option Nat) : List Nat → List Bool
  | [] => []
  | id :: rest =>
    if expectSuccess then
      match readRes id with
      | none => [false]
      | some v =>
        decide (v = if isUpdate then w + T else w) ::
          verifyReadWorker T expectSuccess isUpdate w readRes rest
    else
      decide (readRes id = none) ::
        verifyReadWorker T expectSuccess isUpdate w readRes rest

/-- Checks of the VerifyInsert worker over its id sequence, with the result
code of each Insert call modelled by rc: with expect_success every code must
equal 0, otherwise every code must differ from 0.  All checks are EXPECT
style, so the worker records every outcome; the conjunction is returned. -/
def verifyInsertWorkerChecks (expectSuccess : Bool) (rc : Nat → Nat)
    (ids : List Nat) : Bool :=
  ids.all (fun id => if expectSuccess then rc id == 0 else !(rc id == 0))

/-- Key ids loaded by VerifyBulkload: the entry loop runs i = kThreadNum up to
(kExecNum + 1) * kThreadNum - 1, so the j-th entry uses key id T + j. -/
def bulkloadIDs (T E : Nat) : List Nat :=
  (List.range (E * T)).map (fun j => T + j)

/-- Read check of read_proc in VerifyConcurrentSMOs: an empty result is
accepted without any assertion, and a present value must equal
payloads_.at(id % kReadThread) with kReadThread = kThreadNum / 2. -/
def smoReadCheck (T id : Nat) : Option Nat → Bool
  | none => true
  | some v => decide (v = id % (T / 2))

/-- Key-order check of one scan pass in scan_proc: prev_key starts at
keys_.at(0) and each yielded key must be strictly greater than the previous
one under KeyComp. -/
def smoScanPassCheck : Nat → List Nat → Bool
  | _, [] => true
  | prev, k :: rest => decide (prev < k) && smoScanPassCheck k rest

/-- Scan-pass oracle of scan_proc, starting from the key with id 0. -/
def smoScanPassOracle (l : List Nat) : Bool := smoScanPassCheck 0 l

/-- Events recorded by the trace embedding of worker bodies. -/
inductive Ev where
  | buildIds : Ev
  | waitReady : Ev
  | readOp (id : Nat) : Ev
  | writeOp (id pay : Nat) : Ev
  | insertOp (id pay : Nat) : Ev
  | updateOp (id pay : Nat) : Ev
  | deleteOp (id : Nat) : Ev
  | snapReadOp (id : Nat) : Ev
  | scanPass : Ev
  | forwardEpoch : Ev
  | captureGuard : Ev
  | createGuard : Ev
  | obsCounter (v : Nat) : Ev
  | incCounter : Ev
  | phaseWriteAll : Ev
  | phaseConcurrent : Ev
deriving DecidableEq

/-- Events that touch the system under test or the epoch manager. -/
def Ev.isSut : Ev → Bool
  | .buildIds => false
  | .waitReady => false
  | .obsCounter _ => false
  | .incCounter => false
  | .phaseWriteAll => false
  | .phaseConcurrent => false
  | _ => true

/-- Counter-observation events. -/
def Ev.isObs : Ev → Bool
  | .obsCounter _ => true
  | _ => false

/-- Read-operation events. -/
def Ev.isReadOp : Ev → Bool
  | .readOp _ => true
  | _ => false

/-- A trace blocks on the shared ready flag before touching the system under
test when no event in front of the first waitReady event is a SUT or epoch
operation. -/
def waitsBeforeSut (tr : List Ev) : Bool :=
  (tr.takeWhile (fun e => !(e == Ev.waitReady))).all (fun e => !(e.isSut))

/-- A trace observes the shared round counter at a value of at least the
given target. -/
def observesCounterGE (target : Nat) (tr : List Ev) : Bool :=
  tr.any (fun e =>
    match e with
    | Ev.obsCounter v => decide (target ≤ v)
    | _ => false)

/-- Trace of the VerifyRead worker: build the id sequence, wait on the ready
flag inside CreateTargetIDs(w_id, pattern), then issue one Read per id. -/
def verifyReadWorkerTr (T E : Nat) (rand : Nat → Nat) (w : Nat)
    (p : AccessPattern) : List Ev :=
  Ev.buildIds :: Ev.waitReady :: (createTargetIDs T E rand w p).map Ev.readOp

/-- Trace of the VerifyWrite worker: one Write per id with payload
w_id + kThreadNum when is_update holds and w_id otherwise. -/
def verifyWriteWorkerTr (T E : Nat) (rand : Nat → Nat) (w : Nat)
    (p : AccessPattern) (isUpdate : Bool) : List Ev :=
  Ev.buildIds :: Ev.waitReady ::
    (createTargetIDs T E rand w p).map
      (fun id => Ev.writeOp id (if isUpdate then w + T else w))

/-- Trace of the VerifyInsert worker. -/
def verifyInsertWorkerTr (T E : Nat) (rand : Nat → Nat) (w : Nat)
    (p : AccessPattern) (isUpdate : Bool) : List Ev :=
  Ev.buildIds :: Ev.waitReady ::
    (createTargetIDs T E rand w p).map
      (fun id => Ev.insertOp id (if isUpdate then w + T else w))

/-- Trace of the VerifyUpdate worker, which always uses payload
w_id + kThreadNum. -/
def verifyUpdateWorkerTr (T E : Nat) (rand : Nat → Nat) (w : Nat)
    (p : AccessPattern) : List Ev :=
  Ev.buildIds :: Ev.waitReady ::
    (createTargetIDs T E rand w p).map (fun id => Ev.updateOp id (w + T))

/-- Trace of the VerifyDelete worker. -/
def verifyDeleteWorkerTr (T E : Nat) (rand : Nat → Nat) (w : Nat)
    (p : AccessPattern) : List Ev :=
  Ev.buildIds :: Ev.waitReady ::
    (createTargetIDs T E rand w p).map Ev.deleteOp

/-- Trace of the VerifyScan worker: it computes its range bounds from w_id
without calling CreateTargetIDs and immediately issues the Scan call, so it
contains no wait on the ready flag. -/
def verifyScanMtWorkerTr : List Ev := [Ev.scanPass]

/-- Trace of func_snapshot_read in VerifySnapshotRead: it builds its ids with
the CreateTargetIDs(rec_num) overload, which returns without waiting on the
ready flag, and then issues SnapshotRead for every key id i in the interval
from kThreadNum up to kExecNum - 1. -/
def snapshotReadSoloTr (T E : Nat) : List Ev :=
  Ev.buildIds :: (List.range (E - T)).map (fun j => Ev.snapReadOp (T + j))

/-- Trace of func_write in VerifySnapshotRead: a sequential-pattern writer
using payload w_id + kThreadNum. -/
def snapshotReadWriterTr (T E : Nat) (rand : Nat → Nat) (w : Nat) : List Ev :=
  Ev.buildIds :: Ev.waitReady ::
    (createTargetIDs T E rand w .sequential).map
      (fun id => Ev.writeOp id (w + T))

/-- Trace of func_full_scan_op in VerifySnapshotScanWith: the range bounds are
fixed constants and the epoch guard was captured by the coordinator, so the
worker immediately issues the Scan call without waiting on the ready flag. -/
def snapshotScanSoloTr : List Ev := [Ev.scanPass]

/-- Trace of func_write_op in VerifySnapshotScanWith for each selector:
kWrite and kUpdate use payload w_id + kThreadNum, kDelete issues deletes, and
kWithoutWrite leaves the function empty (kInsert is rejected by an assert in
the source and never used). -/
def snapshotScanWriterTr (T E : Nat) (rand : Nat → Nat) (w : Nat)
    (p : AccessPattern) : WriteOperation → List Ev
  | .write =>
    Ev.buildIds :: Ev.waitReady ::
      (createTargetIDs T E rand w p).map (fun id => Ev.writeOp id (w + T))
  | .update =>
    Ev.buildIds :: Ev.waitReady ::
      (createTargetIDs T E rand w p).map (fun id => Ev.updateOp id (w + T))
  | .delete =>
    Ev.buildIds :: Ev.waitReady ::
      (createTargetIDs T E rand w p).map Ev.deleteOp
  | .insert => []
  | .withoutWrite => []

/-- Trace of read_proc in VerifyConcurrentSMOs: build the id sequence and wait
on the ready flag inside CreateTargetIDsForConcurrentSMOs, then one single
pass of Read calls; the round counter is never consulted. -/
def smoReadProcTr (T E : Nat) (r1 r2 : Nat → Nat) : List Ev :=
  Ev.buildIds :: Ev.waitReady ::
    (createTargetIDsForConcurrentSMOs T E r1 r2).map Ev.readOp

/-- Observation and pass events of the scan loop in scan_proc: before each
pass the shared counter is read; a pass runs exactly when the observed value
is still below the target, and the loop ends at the first observation that
reaches it.  The list argument is the successive values the loop reads. -/
def smoScanPasses (target : Nat) : List Nat → List Ev
  | [] => []
  | c :: rest =>
    Ev.obsCounter c ::
      (if c < target then Ev.scanPass :: smoScanPasses target rest else [])

/-- Trace of scan_proc in VerifyConcurrentSMOs: the worker first forwards the
global epoch and creates an epoch guard, without any wait on the ready flag,
then loops scan passes while the observed counter is below
kReadThread = kThreadNum / 2. -/
def smoScanProcTr (T : Nat) (obs : List Nat) : List Ev :=
  Ev.forwardEpoch :: Ev.createGuard :: smoScanPasses (T / 2) obs

/-- Trace of write_proc in VerifyConcurrentSMOs: a kRandom-pattern pass of
Write(id, w_id) calls followed by a single increment of the round counter. -/
def smoWriteProcTr (T E : Nat) (rand : Nat → Nat) (w : Nat) : List Ev :=
  Ev.buildIds :: Ev.waitReady ::
    ((createTargetIDs T E rand w .random).map (fun id => Ev.writeOp id w)
      ++ [Ev.incCounter])

/-- Trace of delete_proc in VerifyConcurrentSMOs. -/
def smoDeleteProcTr (T E : Nat) (rand : Nat → Nat) (w : Nat) : List Ev :=
  Ev.buildIds :: Ev.waitReady ::
    ((createTargetIDs T E rand w .random).map Ev.deleteOp
      ++ [Ev.incCounter])

/-- Coordinator script of VerifySnapshotScanWith in program order: the
VerifyWrite phase with base payloads, one ForwardGlobalEpoch, the
GetProtectedEpochs capture, two further ForwardGlobalEpoch calls, and then
the concurrent scan-versus-write phase. -/
def snapshotScanScript : List Ev :=
  [Ev.phaseWriteAll, Ev.forwardEpoch, Ev.captureGuard, Ev.forwardEpoch,
    Ev.forwardEpoch, Ev.phaseConcurrent]

/-- Number of epoch forwards a script performs before the guard capture. -/
def forwardsBeforeCapture (script : List Ev) : Nat :=
  (script.takeWhile (fun e => !(e == Ev.captureGuard))).count Ev.forwardEpoch

/-- Oracle of func_full_scan_op in VerifySnapshotScanWith: the scan loop
checks with begin_id = kThreadNum and is_update semantics off, followed by
EXPECT_EQ(begin_id, end_id) against end_id = kExecNum * kThreadNum. -/
def snapshotScanOracle (T E : Nat) (seq : List (Nat × Nat)) : Bool :=
  (scanLoopCheck T false T seq).1
    && decide ((scanLoopCheck T false T seq).2 = E * T)

/-! Basic facts about the generated sequences. -/

theorem extractAt_mem_perm {α : Type} :
    ∀ (j : Nat) (l : List α) (x : α) (rest : List α),
      extractAt j l = some (x, rest) → l.Perm (x :: rest) := by
  intro j
  induction j with
  | zero =>
    intro l x rest h
    cases l with
    | nil => simp [extractAt] at h
    | cons a as =>
      simp [extractAt] at h
      obtain ⟨hx, hr⟩ := h
      subst hx; subst hr
      exact List.Perm.refl _
  | succ j ih =>
    intro l x rest h
    cases l with
    | nil => simp [extractAt] at h
    | cons a as =>
      rw [extractAt] at h
      cases h₀ : extractAt j as with
      | none => rw [h₀] at h; simp at h
      | some p =>
        obtain ⟨y, rest₀⟩ := p
        rw [h₀] at h
        simp at h
        obtain ⟨hxy, hr⟩ := h
        subst hxy
        subst hr
        have hperm := ih as _ rest₀ h₀
        exact (hperm.cons a).trans (List.Perm.swap _ a rest₀)

theorem shuffleFuel_perm {α : Type} (rand : Nat → Nat) :
    ∀ (fuel step : Nat) (l : List α), (shuffleFuel rand fuel step l).Perm l := by
  intro fuel
  induction fuel with
  | zero => intro step l; exact List.Perm.refl _
  | succ fuel ih =>
    intro step l
    cases l with
    | nil => exact List.Perm.refl _
    | cons x xs =>
      rw [shuffleFuel]
      cases h : extractAt (rand step % (x :: xs).length) (x :: xs) with
      | none => exact List.Perm.refl _
      | some p =>
        obtain ⟨y, rest⟩ := p
        have h₁ : (x :: xs).Perm (y :: rest) := extractAt_mem_perm _ _ _ _ h
        exact ((ih (step + 1) rest).cons y).trans h₁.symm

theorem shuffle_perm {α : Type} (rand : Nat → Nat) (l : List α) :
    (shuffle rand l).Perm l :=
  shuffleFuel_perm rand l.length 0 l

theorem descendingIDs_eq_reverse (T E w : Nat) :
    descendingIDs T E w = (ascendingIDs T E w).reverse := by
  induction E with
  | zero => simp [descendingIDs, ascendingIDs]
  | succ E ih =>
    have hdesc : descendingIDs T (E + 1) w =
        (T * (E + 1) + w) :: descendingIDs T E w := by
      rw [descendingIDs, List.range_succ_eq_map]
      simp only [List.map_cons, List.map_map]
      refine congrArg₂ _ (by simp) ?_
      rw [descendingIDs]
      refine List.map_congr_left ?_
      intro k _
      simp [Function.comp, Nat.succ_sub_succ]
    have hasc : ascendingIDs T (E + 1) w =
        ascendingIDs T E w ++ [T * (E + 1) + w] := by
      rw [ascendingIDs, List.range_succ, List.map_append]
      rfl
    rw [hdesc, hasc, List.reverse_append, ih]
    rfl

theorem mem_ascendingIDs {T E w id : Nat} :
    id ∈ ascendingIDs T E w ↔ ∃ k, k < E ∧ id = T * (k + 1) + w := by
  simp [ascendingIDs, eq_comm]

theorem createTargetIDs_perm (T E : Nat) (rand : Nat → Nat) (w : Nat)
    (p : AccessPattern) :
    (createTargetIDs T E rand w p).Perm (ascendingIDs T E w) := by
  cases p with
  | sequential => exact List.Perm.refl _
  | reverse =>
    rw [createTargetIDs, descendingIDs_eq_reverse]
    exact (ascendingIDs T E w).reverse_perm
  | random => exact shuffle_perm rand _

theorem mem_createTargetIDs {T E : Nat} {rand : Nat → Nat} {w : Nat}
    {p : AccessPattern} {id : Nat} :
    id ∈ createTargetIDs T E rand w p ↔ ∃ k, k < E ∧ id = T * (k + 1) + w := by
  rw [(createTargetIDs_perm T E rand w p).mem_iff, mem_ascendingIDs]

theorem length_ascendingIDs (T E w : Nat) : (ascendingIDs T E w).length = E := by
  simp [ascendingIDs]

theorem nodup_ascendingIDs {T : Nat} (hT : 0 < T) (E w : Nat) :
    (ascendingIDs T E w).Nodup := by
  refine List.Nodup.map ?_ (List.nodup_range E)
  intro a b hab
  simp only at hab
  have h1 : T * (a + 1) = T * (b + 1) := by omega
  have h2 := Nat.eq_of_mul_eq_mul_left hT h1
  omega

/-- Arithmetic characterization of membership in a worker sequence: for a
worker id below T, the generated ids are exactly the ids of the residue class
w modulo T inside the interval from T up to (E + 1) * T. -/
theorem mem_createTargetIDs_iff {T E : Nat} (hT : 0 < T) {rand : Nat → Nat}
    {w : Nat} (hw : w < T) {p : AccessPattern} {id : Nat} :
    id ∈ createTargetIDs T E rand w p ↔
      T ≤ id ∧ id < (E + 1) * T ∧ id % T = w := by
  rw [mem_createTargetIDs]
  constructor
  · rintro ⟨k, hk, rfl⟩
    refine ⟨by nlinarith, by nlinarith, ?_⟩
    rw [Nat.add_comm, Nat.add_mul_mod_self_left]
    exact Nat.mod_eq_of_lt hw
  · rintro ⟨h₁, h₂, h₃⟩
    have hdm := Nat.div_add_mod id T
    have hq1 : 1 ≤ id / T := (Nat.one_le_div_iff hT).mpr h₁
    have hq2 : id / T < E + 1 := by
      rw [Nat.div_lt_iff_lt_mul hT]
      omega
    have hq : id / T - 1 + 1 = id / T := by omega
    refine ⟨id / T - 1, by omega, ?_⟩
    rw [hq]
    omega

/-! Characterization of the scan-verification loop. -/

theorem length_expectedFrom (T : Nat) (u : Bool) (c n : Nat) :
    (expectedFrom T u c n).length = n := by
  simp [expectedFrom]

theorem expectedFrom_succ (T : Nat) (u : Bool) (c n : Nat) :
    expectedFrom T u c (n + 1) =
      (c, expectedValId T u c) :: expectedFrom T u (c + 1) n := by
  rw [expectedFrom, List.range_succ_eq_map, List.map_cons, List.map_map]
  refine congrArg₂ _ (by simp) ?_
  rw [expectedFrom]
  refine List.map_congr_left ?_
  intro j _
  have hc : c + (j + 1) = c + 1 + j := by omega
  simp [Function.comp, hc]

theorem scanLoopCheck_snd (T : Nat) (u : Bool) :
    ∀ (seq : List (Nat × Nat)) (c : Nat),
      (scanLoopCheck T u c seq).2 = c + seq.length := by
  intro seq
  induction seq with
  | nil => intro c; simp [scanLoopCheck]
  | cons e rest ih =>
    intro c
    rw [scanLoopCheck]
    simp only [ih (c + 1), List.length_cons]
    omega

theorem scanLoopCheck_fst (T : Nat) (u : Bool) :
    ∀ (seq : List (Nat × Nat)) (c : Nat),
      (scanLoopCheck T u c seq).1 = true ↔
        seq = expectedFrom T u c seq.length := by
  intro seq
  induction seq with
  | nil => intro c; simp [scanLoopCheck, expectedFrom]
  | cons e rest ih =>
    intro c
    rw [List.length_cons, expectedFrom_succ, scanLoopCheck]
    simp only [Bool.and_eq_true, decide_eq_true_eq, List.cons.injEq]
    rw [ih (c + 1)]
    constructor
    · rintro ⟨⟨h1, h2⟩, h3⟩
      refine ⟨?_, h3⟩
      rw [Prod.ext_iff]
      exact ⟨h1, h2⟩
    · rintro ⟨h1, h3⟩
      rw [h1]
      exact ⟨⟨rfl, rfl⟩, h3⟩

/-- The scan-verification loop followed by the final cursor comparison
accepts exactly the expected sequence for the scanned range. -/
theorem scanOracleAccepts_iff (T : Nat) (u : Bool) {b e : Nat} (hbe : b ≤ e)
    (seq : List (Nat × Nat)) :
    ((scanLoopCheck T u b seq).1
        && decide ((scanLoopCheck T u b seq).2 = e)) = true ↔
      seq = expectedScanSeq T u b e := by
  rw [Bool.and_eq_true, decide_eq_true_eq, scanLoopCheck_snd,
    scanLoopCheck_fst, expectedScanSeq]
  constructor
  · rintro ⟨h1, h2⟩
    have hlen : e - b = seq.length := by omega
    rw [hlen]
    exact h1
  · intro h
    have hlen : seq.length = e - b := by rw [h, length_expectedFrom]
    constructor
    · rw [hlen]; exact h
    · omega

/-- C2: the scan oracle of VerifyScan advances an expected-id cursor from the
begin id, checks every yielded key against keys_ at the cursor and every
yielded payload against the expected payload index, and finally requires the
cursor to land exactly on the end id with the iterator exhausted; hence for
the scanned range of worker w it accepts exactly the gap-free expected
sequence. -/
theorem verifyScan_oracle_characterization (T E : Nat) (u : Bool) (w : Nat)
    (hTE : T ≤ E) :
    ∀ seq, verifyScanWorker T true u (scanBeginId T E w) (scanEndId E w) seq
        = true ↔
      seq = expectedScanSeq T u (scanBeginId T E w) (scanEndId E w) := by
  intro seq
  have hbe : scanBeginId T E w ≤ scanEndId E w := by
    rw [scanBeginId, scanEndId, Nat.mul_succ]
    omega
  rw [verifyScanWorker, if_pos rfl]
  exact scanOracleAccepts_iff T u hbe seq

/-- Witness for C2 at T = 1, E = 2, w = 0. -/
theorem verifyScan_oracle_characterization_witness :
    (1 : Nat) ≤ 2 ∧
      ∀ seq, verifyScanWorker 1 true false (scanBeginId 1 2 0) (scanEndId 2 0)
          seq = true ↔
        seq = expectedScanSeq 1 false (scanBeginId 1 2 0) (scanEndId 2 0) :=
  ⟨by decide, verifyScan_oracle_characterization 1 2 false 0 (by decide)⟩

/-- C3: CreateTargetIDs(w_id, pattern) yields exactly the ids
kThreadNum * k + w_id for k = 1..kExecNum, in ascending k order for
kSequential, in the reversed (descending k) order for kReverse, and for
kRandom the deterministic fixed-stream shuffle of the ascending sequence,
which is a permutation of it; being a pure function of its arguments, the
generation is repeatable. -/
theorem createTargetIDs_content (T E : Nat) (rand : Nat → Nat) (w : Nat) :
    createTargetIDs T E rand w .sequential =
        (List.range E).map (fun k => T * (k + 1) + w) ∧
      createTargetIDs T E rand w .reverse =
        ((List.range E).map (fun k => T * (k + 1) + w)).reverse ∧
      (createTargetIDs T E rand w .random).Perm
        ((List.range E).map (fun k => T * (k + 1) + w)) ∧
      createTargetIDs T E rand w .random = shuffle rand (ascendingIDs T E w) := by
  refine ⟨rfl, ?_, ?_, rfl⟩
  · rw [createTargetIDs, descendingIDs_eq_reverse]
    rfl
  · exact createTargetIDs_perm T E rand w .random

/-- C4: for every pattern the per-worker sequences partition the id interval
from kThreadNum up to (kExecNum + 1) * kThreadNum: each worker receives
exactly kExecNum distinct ids characterized by its residue class modulo
kThreadNum, distinct workers receive disjoint sets, and every id of the
interval belongs to exactly one worker. -/
theorem createTargetIDs_partition (T E : Nat) (hT : 0 < T) :
    (∀ (rand : Nat → Nat) (p : AccessPattern) (w : Nat), w < T →
        (createTargetIDs T E rand w p).length = E ∧
          (createTargetIDs T E rand w p).Nodup ∧
          ∀ id, id ∈ createTargetIDs T E rand w p ↔
            T ≤ id ∧ id < (E + 1) * T ∧ id % T = w) ∧
      (∀ (rand : Nat → Nat) (p : AccessPattern) (w₁ w₂ : Nat), w₁ < T →
        w₂ < T → w₁ ≠ w₂ → ∀ id, id ∈ createTargetIDs T E rand w₁ p →
          id ∉ createTargetIDs T E rand w₂ p) ∧
      (∀ (rand : Nat → Nat) (p : AccessPattern) (id : Nat),
        T ≤ id → id < (E + 1) * T →
          ∃! w, w < T ∧ id ∈ createTargetIDs T E rand w p) := by
  refine ⟨?_, ?_, ?_⟩
  · intro rand p w hw
    refine ⟨?_, ?_, fun id => mem_createTargetIDs_iff hT hw⟩
    · rw [(createTargetIDs_perm T E rand w p).length_eq, length_ascendingIDs]
    · exact ((createTargetIDs_perm T E rand w p).nodup_iff).mpr
        (nodup_ascendingIDs hT E w)
  · intro rand p w₁ w₂ h₁ h₂ hne id hid hid₂
    have ha := (mem_createTargetIDs_iff hT h₁).mp hid
    have hb := (mem_createTargetIDs_iff hT h₂).mp hid₂
    omega
  · intro rand p id hle hlt
    refine ⟨id % T, ⟨Nat.mod_lt id hT, ?_⟩, ?_⟩
    · exact (mem_createTargetIDs_iff hT (Nat.mod_lt id hT)).mpr ⟨hle, hlt, rfl⟩
    · rintro w ⟨hw, hmem⟩
      have := (mem_createTargetIDs_iff hT hw).mp hmem
      omega

/-- Witness for C4 at T = 2, E = 1. -/
theorem createTargetIDs_partition_witness :
    (0 : Nat) < 2 ∧
      ((∀ (rand : Nat → Nat) (p : AccessPattern) (w : Nat), w < 2 →
          (createTargetIDs 2 1 rand w p).length = 1 ∧
            (createTargetIDs 2 1 rand w p).Nodup ∧
            ∀ id, id ∈ createTargetIDs 2 1 rand w p ↔
              2 ≤ id ∧ id < (1 + 1) * 2 ∧ id % 2 = w) ∧
        (∀ (rand : Nat → Nat) (p : AccessPattern) (w₁ w₂ : Nat), w₁ < 2 →
          w₂ < 2 → w₁ ≠ w₂ → ∀ id, id ∈ createTargetIDs 2 1 rand w₁ p →
            id ∉ createTargetIDs 2 1 rand w₂ p) ∧
        (∀ (rand : Nat → Nat) (p : AccessPattern) (id : Nat),
          2 ≤ id → id < (1 + 1) * 2 →
            ∃! w, w < 2 ∧ id ∈ createTargetIDs 2 1 rand w p)) :=
  ⟨by decide, createTargetIDs_partition 2 1 (by decide)⟩

/-! Read-worker behavior under failures. -/

theorem verifyReadWorker_length_of_present (T : Nat) (u : Bool) (w : Nat)
    (readRes : Nat → Option Nat) :
    ∀ ids : List Nat, (∀ id ∈ ids, (readRes id).isSome = true) →
      (verifyReadWorker T true u w readRes ids).length = ids.length := by
  intro ids
  induction ids with
  | nil => intro _; rfl
  | cons id rest ih =>
    intro hall
    have h1 : (readRes id).isSome = true := hall id (List.mem_cons_self id rest)
    rw [verifyReadWorker, if_pos rfl]
    cases h : readRes id with
    | none => rw [h] at h1; simp at h1
    | some v =>
      simp [ih (fun i hi => hall i (List.mem_cons_of_mem id hi))]

theorem verifyReadWorker_length_expectFail (T : Nat) (u : Bool) (w : Nat)
    (readRes : Nat → Option Nat) :
    ∀ ids : List Nat,
      (verifyReadWorker T false u w readRes ids).length = ids.length := by
  intro ids
  induction ids with
  | nil => rfl
  | cons id rest ih =>
    rw [verifyReadWorker]
    simp only [Bool.false_eq_true, if_false, List.length_cons, ih]

/-- C6 counterexample: under expect_success, a read that returns no payload
hits the fatal ASSERT_TRUE, so with two assigned ids and an index returning
nothing the worker records a single failed check and never checks the second
id — a single missing payload does abort the remaining per-id checks of that
worker. -/
theorem verifyRead_missing_payload_aborts :
    (verifyReadWorker 8 true false 0 (fun _ => (none : Option Nat))
        [8, 16]).length = 1 ∧
      ([8, 16] : List Nat).length = 2 := by
  constructor
  · rfl
  · rfl

/-- C6 (amended): payload mismatches are recorded through non-fatal EXPECT
checks and the worker continues to the end of its id sequence, so all such
violations in a scenario are reported; whenever every expected-success read
yields some payload (matching or not) the worker records one check per id,
and in the expect-failure mode every id is always checked; only a missing
payload on an expected-success read is a fatal assertion that ends the
remaining per-id checks of that worker early. -/
theorem verifyRead_reports_all_mismatches (T : Nat) (u : Bool) (w : Nat)
    (readRes : Nat → Option Nat) (ids : List Nat)
    (hall : ∀ id ∈ ids, (readRes id).isSome = true) :
    (verifyReadWorker T true u w readRes ids).length = ids.length ∧
      ∀ rr : Nat → Option Nat,
        (verifyReadWorker T false u w rr ids).length = ids.length :=
  ⟨verifyReadWorker_length_of_present T u w readRes ids hall,
    fun rr => verifyReadWorker_length_expectFail T u w rr ids⟩

/-- Witness for the amended C6 at T = 1 with two ids and an index answering
every read with the wrong payload 99. -/
theorem verifyRead_reports_all_mismatches_witness :
    (∀ id ∈ ([1, 2] : List Nat),
        ((fun _ => (some 99 : Option Nat)) id).isSome = true) ∧
      ((verifyReadWorker 1 true false 0 (fun _ => (some 99 : Option Nat))
          [1, 2]).length = ([1, 2] : List Nat).length ∧
        ∀ rr : Nat → Option Nat,
          (verifyReadWorker 1 false false 0 rr [1, 2]).length
            = ([1, 2] : List Nat).length) :=
  ⟨by decide,
    verifyRead_reports_all_mismatches 1 false 0 (fun _ => some 99) [1, 2]
      (by decide)⟩

/-! Bulkload coverage of the insert phase. -/

theorem mem_bulkloadIDs {T E id : Nat} :
    id ∈ bulkloadIDs T E ↔ T ≤ id ∧ id < (E + 1) * T := by
  have hsum : (E + 1) * T = E * T + T := by ring
  simp only [bulkloadIDs, List.mem_map, List.mem_range]
  constructor
  · rintro ⟨j, hj, rfl⟩
    omega
  · rintro ⟨h₁, h₂⟩
    exact ⟨id - T, by omega, by omega⟩

/-- C9: the key ids loaded by VerifyBulkload cover every id any worker later
targets, and therefore, for an index whose Insert fails with a nonzero code
exactly on already present keys, the VerifyInsert oracle run with
expect_success off accepts every Insert result of every worker. -/
theorem bulkload_covers_inserts (T E : Nat) (hT : 0 < T) (rc : Nat → Nat)
    (hrc : ∀ id, rc id ≠ 0 ↔ id ∈ bulkloadIDs T E) :
    (∀ (rand : Nat → Nat) (p : AccessPattern) (w : Nat), w < T →
        ∀ id, id ∈ createTargetIDs T E rand w p → id ∈ bulkloadIDs T E) ∧
      ∀ (rand : Nat → Nat) (p : AccessPattern) (w : Nat), w < T →
        verifyInsertWorkerChecks false rc (createTargetIDs T E rand w p)
          = true := by
  have hsub : ∀ (rand : Nat → Nat) (p : AccessPattern) (w : Nat), w < T →
      ∀ id, id ∈ createTargetIDs T E rand w p → id ∈ bulkloadIDs T E := by
    intro rand p w hw id hid
    have h := (mem_createTargetIDs_iff hT hw).mp hid
    exact mem_bulkloadIDs.mpr ⟨h.1, h.2.1⟩
  refine ⟨hsub, ?_⟩
  intro rand p w hw
  rw [verifyInsertWorkerChecks, List.all_eq_true]
  intro id hid
  have hne : rc id ≠ 0 := (hrc id).mpr (hsub rand p w hw id hid)
  simp [hne]

/-- Witness for C9 at T = 1, E = 1, with an Insert result code that is
nonzero exactly on the bulkloaded ids. -/
theorem bulkload_covers_inserts_witness :
    (0 : Nat) < 1 ∧
      ((∀ (rand : Nat → Nat) (p : AccessPattern) (w : Nat), w < 1 →
          ∀ id, id ∈ createTargetIDs 1 1 rand w p → id ∈ bulkloadIDs 1 1) ∧
        ∀ (rand : Nat → Nat) (p : AccessPattern) (w : Nat), w < 1 →
          verifyInsertWorkerChecks false
            (fun id => if id ∈ bulkloadIDs 1 1 then 1 else 0)
            (createTargetIDs 1 1 rand w p) = true) :=
  ⟨by decide,
    bulkload_covers_inserts 1 1 (by decide)
      (fun id => if id ∈ bulkloadIDs 1 1 then 1 else 0)
      (fun id => by by_cases h : id ∈ bulkloadIDs 1 1 <;> simp [h])⟩

/-! Bounds of every container index the verification routines use. -/

/-- C10: with kExecNum and kThreadNum positive, every key id generated by any
of the three id generators, every scan range bound, and every bulkload key id
stays below kKeyNum = (kExecNum + 2) * kThreadNum, and every payload index
the oracles use (w_id, w_id + kThreadNum, id % kThreadNum and, when
kThreadNum is a multiple of four, id % (kThreadNum / 2)) stays below the
2 * kThreadNum payloads PrepareData creates, so no at() access can throw. -/
theorem prepared_data_indices_in_bounds (T E : Nat) (hT : 0 < T)
    (hE : 0 < E) :
    (∀ (rand : Nat → Nat) (p : AccessPattern) (w : Nat), w < T →
        ∀ id, id ∈ createTargetIDs T E rand w p → id < (E + 2) * T) ∧
      (∀ id, id ∈ createFlatIDs E → id < (E + 2) * T) ∧
      (T % 4 = 0 → ∀ (r1 r2 : Nat → Nat) (id : Nat),
        id ∈ createTargetIDsForConcurrentSMOs T E r1 r2 →
          id < (E + 2) * T) ∧
      (∀ w, w < T →
        scanBeginId T E w < (E + 2) * T ∧ scanEndId E w < (E + 2) * T) ∧
      (T < (E + 2) * T ∧ E * T < (E + 2) * T) ∧
      (∀ id, id ∈ bulkloadIDs T E → id < (E + 2) * T) ∧
      (∀ w, w < T → w < 2 * T ∧ w + T < 2 * T) ∧
      (∀ id, id % T < 2 * T ∧ expectedValId T true id < 2 * T ∧
        expectedValId T false id < 2 * T) ∧
      (T % 4 = 0 → ∀ id, id % (T / 2) < 2 * T) := by
  have hexp : (E + 2) * T = E * T + 2 * T := by ring
  have hone : (E + 1) * T = E * T + T := by ring
  refine ⟨?_, ?_, ?_, ?_, ?_, ?_, ?_, ?_, ?_⟩
  · intro rand p w hw id hid
    have h := (mem_createTargetIDs_iff hT hw).mp hid
    omega
  · intro id hid
    rw [createFlatIDs, List.mem_range] at hid
    have h2 : (E + 2) * 1 ≤ (E + 2) * T := Nat.mul_le_mul_left (E + 2) hT
    omega
  · intro h4 r1 r2 id hid
    simp only [createTargetIDsForConcurrentSMOs, List.mem_map,
      List.mem_range] at hid
    obtain ⟨i, _, rfl⟩ := hid
    have hb1 : r1 i % E < E := Nat.mod_lt _ hE
    have hb2 : r2 i % (T / 2) < T / 2 := Nat.mod_lt _ (by omega)
    have hm : T * (1 + r1 i % E) ≤ T * E := Nat.mul_le_mul_left T (by omega)
    have hc : T * E = E * T := Nat.mul_comm T E
    omega
  · intro w hw
    have hm : E * (w + 1) ≤ E * T := Nat.mul_le_mul_left E (by omega)
    have hm2 : E * w + E = E * (w + 1) := by ring
    rw [scanBeginId, scanEndId]
    omega
  · have h3 : 3 * T ≤ (E + 2) * T := Nat.mul_le_mul_right T (by omega)
    omega
  · intro id hid
    have h := mem_bulkloadIDs.mp hid
    omega
  · intro w hw
    omega
  · intro id
    have hm : id % T < T := Nat.mod_lt _ hT
    refine ⟨by omega, ?_, ?_⟩ <;> simp only [expectedValId, if_true, if_false,
      Bool.false_eq_true, if_pos rfl] <;> omega
  · intro h4 id
    have hm : id % (T / 2) < T / 2 := Nat.mod_lt _ (by omega)
    omega

/-- Witness for C10 at T = 4, E = 1. -/
theorem prepared_data_indices_in_bounds_witness :
    (0 : Nat) < 4 ∧ (0 : Nat) < 1 ∧
      ((∀ (rand : Nat → Nat) (p : AccessPattern) (w : Nat), w < 4 →
          ∀ id, id ∈ createTargetIDs 4 1 rand w p → id < (1 + 2) * 4) ∧
        (∀ id, id ∈ createFlatIDs 1 → id < (1 + 2) * 4) ∧
        (4 % 4 = 0 → ∀ (r1 r2 : Nat → Nat) (id : Nat),
          id ∈ createTargetIDsForConcurrentSMOs 4 1 r1 r2 →
            id < (1 + 2) * 4) ∧
        (∀ w, w < 4 →
          scanBeginId 4 1 w < (1 + 2) * 4 ∧ scanEndId 1 w < (1 + 2) * 4) ∧
        (4 < (1 + 2) * 4 ∧ 1 * 4 < (1 + 2) * 4) ∧
        (∀ id, id ∈ bulkloadIDs 4 1 → id < (1 + 2) * 4) ∧
        (∀ w, w < 4 → w < 2 * 4 ∧ w + 4 < 2 * 4) ∧
        (∀ id, id % 4 < 2 * 4 ∧ expectedValId 4 true id < 2 * 4 ∧
          expectedValId 4 false id < 2 * 4) ∧
        (4 % 4 = 0 → ∀ id, id % (4 / 2) < 2 * 4)) :=
  ⟨by decide, by decide, prepared_data_indices_in_bounds 4 1 (by decide)
    (by decide)⟩

/-! Barrier discipline of the worker traces. -/

theorem waitsBeforeSut_buildWait (tr : List Ev) :
    waitsBeforeSut (Ev.buildIds :: Ev.waitReady :: tr) = true := by
  rw [waitsBeforeSut]
  rfl

theorem waitsBeforeSut_forwardHead (tr : List Ev) :
    waitsBeforeSut (Ev.forwardEpoch :: tr) = false := by
  rw [waitsBeforeSut, List.takeWhile_cons]
  rfl

theorem waitsBeforeSut_buildSnapRead (i : Nat) (tr : List Ev) :
    waitsBeforeSut (Ev.buildIds :: Ev.snapReadOp i :: tr) = false := by
  rw [waitsBeforeSut, List.takeWhile_cons]
  rfl

theorem snapshotReadSoloTr_of_lt {T E : Nat} (h : T < E) :
    ∃ tr, snapshotReadSoloTr T E = Ev.buildIds :: Ev.snapReadOp T :: tr := by
  obtain ⟨k, hk⟩ : ∃ k, E - T = k + 1 := ⟨E - T - 1, by omega⟩
  refine ⟨(List.range k).map (fun j => Ev.snapReadOp (T + (j + 1))), ?_⟩
  rw [snapshotReadSoloTr, hk, List.range_succ_eq_map, List.map_cons,
    List.map_map]
  simp [Function.comp]

/-- C5 counterexample: the scan worker of VerifyConcurrentSMOs forwards the
global epoch and creates its epoch guard without ever waiting on the ready
flag, and the snapshot-read worker of VerifySnapshotRead (which builds its
ids through the flat CreateTargetIDs(rec_num) overload containing no wait)
issues SnapshotRead calls before any wait — so not every worker blocks on
the ready flag before touching the system under test. -/
theorem workers_wait_before_sut_counterexample :
    waitsBeforeSut (smoScanProcTr 4 []) = false ∧
      waitsBeforeSut (snapshotReadSoloTr 2 3) = false := by
  constructor
  · rfl
  · rfl

/-- C5 (amended): every worker that obtains its ids through
CreateTargetIDs(w_id, pattern) or CreateTargetIDsForConcurrentSMOs blocks on
the shared ready flag immediately after building the sequence and before any
operation on the index; but the VerifyScan workers, the full-scan worker of
VerifySnapshotScanWith, the snapshot-read worker of VerifySnapshotRead and
the scan workers of VerifyConcurrentSMOs touch the index or the epoch
manager without waiting on the flag. -/
theorem workers_wait_before_ready_flag (T E : Nat) (hTE : T < E) :
    ∀ (rand r1 r2 : Nat → Nat) (w : Nat) (p : AccessPattern) (u : Bool)
      (obs : List Nat),
      waitsBeforeSut (verifyReadWorkerTr T E rand w p) = true ∧
        waitsBeforeSut (verifyWriteWorkerTr T E rand w p u) = true ∧
        waitsBeforeSut (verifyInsertWorkerTr T E rand w p u) = true ∧
        waitsBeforeSut (verifyUpdateWorkerTr T E rand w p) = true ∧
        waitsBeforeSut (verifyDeleteWorkerTr T E rand w p) = true ∧
        waitsBeforeSut (snapshotReadWriterTr T E rand w) = true ∧
        waitsBeforeSut (snapshotScanWriterTr T E rand w p .write) = true ∧
        waitsBeforeSut (snapshotScanWriterTr T E rand w p .update) = true ∧
        waitsBeforeSut (snapshotScanWriterTr T E rand w p .delete) = true ∧
        waitsBeforeSut (smoReadProcTr T E r1 r2) = true ∧
        waitsBeforeSut (smoWriteProcTr T E rand w) = true ∧
        waitsBeforeSut (smoDeleteProcTr T E rand w) = true ∧
        waitsBeforeSut verifyScanMtWorkerTr = false ∧
        waitsBeforeSut snapshotScanSoloTr = false ∧
        waitsBeforeSut (smoScanProcTr T obs) = false ∧
        waitsBeforeSut (snapshotReadSoloTr T E) = false := by
  intro rand r1 r2 w p u obs
  obtain ⟨tr, htr⟩ := snapshotReadSoloTr_of_lt hTE
  refine ⟨waitsBeforeSut_buildWait _, waitsBeforeSut_buildWait _,
    waitsBeforeSut_buildWait _, waitsBeforeSut_buildWait _,
    waitsBeforeSut_buildWait _, waitsBeforeSut_buildWait _,
    waitsBeforeSut_buildWait _, waitsBeforeSut_buildWait _,
    waitsBeforeSut_buildWait _, waitsBeforeSut_buildWait _,
    waitsBeforeSut_buildWait _, waitsBeforeSut_buildWait _,
    rfl, rfl, waitsBeforeSut_forwardHead _, ?_⟩
  rw [htr]
  exact waitsBeforeSut_buildSnapRead T tr

/-- Witness for the amended C5 at T = 2, E = 3. -/
theorem workers_wait_before_ready_flag_witness :
    (2 : Nat) < 3 ∧
      ∀ (rand r1 r2 : Nat → Nat) (w : Nat) (p : AccessPattern) (u : Bool)
        (obs : List Nat),
        waitsBeforeSut (verifyReadWorkerTr 2 3 rand w p) = true ∧
          waitsBeforeSut (verifyWriteWorkerTr 2 3 rand w p u) = true ∧
          waitsBeforeSut (verifyInsertWorkerTr 2 3 rand w p u) = true ∧
          waitsBeforeSut (verifyUpdateWorkerTr 2 3 rand w p) = true ∧
          waitsBeforeSut (verifyDeleteWorkerTr 2 3 rand w p) = true ∧
          waitsBeforeSut (snapshotReadWriterTr 2 3 rand w) = true ∧
          waitsBeforeSut (snapshotScanWriterTr 2 3 rand w p .write) = true ∧
          waitsBeforeSut (snapshotScanWriterTr 2 3 rand w p .update) = true ∧
          waitsBeforeSut (snapshotScanWriterTr 2 3 rand w p .delete) = true ∧
          waitsBeforeSut (smoReadProcTr 2 3 r1 r2) = true ∧
          waitsBeforeSut (smoWriteProcTr 2 3 rand w) = true ∧
          waitsBeforeSut (smoDeleteProcTr 2 3 rand w) = true ∧
          waitsBeforeSut verifyScanMtWorkerTr = false ∧
          waitsBeforeSut snapshotScanSoloTr = false ∧
          waitsBeforeSut (smoScanProcTr 2 obs) = false ∧
          waitsBeforeSut (snapshotReadSoloTr 2 3) = false :=
  ⟨by decide, workers_wait_before_ready_flag 2 3 (by decide)⟩

/-! Round-counter protocol of VerifyConcurrentSMOs. -/

theorem smoScanPasses_countP (t : Nat) :
    ∀ obs : List Nat,
      (smoScanPasses t obs).countP (fun e => e == Ev.scanPass) =
        (obs.takeWhile (fun c => decide (c < t))).length := by
  intro obs
  induction obs with
  | nil => rfl
  | cons c rest ih =>
    rw [smoScanPasses, List.takeWhile_cons]
    by_cases h : c < t
    · rw [if_pos h, if_pos (by simpa using h)]
      simp [List.countP_cons, ih]
    · rw [if_neg h, if_neg (by simpa using h)]
      simp [List.countP_cons]

/-- C7 counterexample: with kThreadNum = 4 the expected round count is
kReadThread = 2, but the read worker of VerifyConcurrentSMOs never observes
the shared round counter at all and terminates after one finite pass over its
kExecNum ids — only the scan workers loop on the counter, so the read
threads do not run until the counter reaches the expected count. -/
theorem read_threads_do_not_loop_on_counter :
    observesCounterGE 2 (smoReadProcTr 4 2 (fun _ => 0) (fun _ => 0)) = false ∧
      observesCounterGE 2 (smoScanProcTr 4 [0, 2]) = true ∧
      (smoReadProcTr 4 2 (fun _ => 0) (fun _ => 0)).length = 2 + 2 := by
  refine ⟨rfl, rfl, rfl⟩

/-- C7 (amended): each write worker and each delete worker of
VerifyConcurrentSMOs increments the shared round counter exactly once, as its
final action after finishing its whole id sequence; each scan worker
repeatedly runs scan passes exactly while its counter observations stay below
kReadThread = kThreadNum / 2 and stops at the first observation reaching it;
each read worker runs one single pass of kExecNum reads and never consults
the counter. -/
theorem smo_round_counter_protocol (T E : Nat) :
    ∀ (rand r1 r2 : Nat → Nat) (w : Nat) (obs : List Nat),
      ((smoWriteProcTr T E rand w).countP (fun e => e == Ev.incCounter) = 1 ∧
        (smoWriteProcTr T E rand w).getLast? = some Ev.incCounter) ∧
        ((smoDeleteProcTr T E rand w).countP (fun e => e == Ev.incCounter) = 1 ∧
          (smoDeleteProcTr T E rand w).getLast? = some Ev.incCounter) ∧
        ((smoScanProcTr T obs).countP (fun e => e == Ev.scanPass) =
          (obs.takeWhile (fun c => decide (c < T / 2))).length) ∧
        ((smoReadProcTr T E r1 r2).countP Ev.isObs = 0 ∧
          (smoReadProcTr T E r1 r2).countP Ev.isReadOp = E) := by
  intro rand r1 r2 w obs
  refine ⟨⟨?_, ?_⟩, ⟨?_, ?_⟩, ?_, ?_, ?_⟩
  · rw [smoWriteProcTr]
    simp [List.countP_cons, List.countP_append, List.countP_map,
      Function.comp]
  · rw [show smoWriteProcTr T E rand w =
      (Ev.buildIds :: Ev.waitReady ::
        (createTargetIDs T E rand w .random).map (fun id => Ev.writeOp id w))
        ++ [Ev.incCounter] from by rw [smoWriteProcTr]; rfl]
    exact List.getLast?_concat _
  · rw [smoDeleteProcTr]
    simp [List.countP_cons, List.countP_append, List.countP_map,
      Function.comp]
  · rw [show smoDeleteProcTr T E rand w =
      (Ev.buildIds :: Ev.waitReady ::
        (createTargetIDs T E rand w .random).map Ev.deleteOp)
        ++ [Ev.incCounter] from by rw [smoDeleteProcTr]; rfl]
    exact List.getLast?_concat _
  · rw [smoScanProcTr]
    simp only [List.countP_cons]
    rw [smoScanPasses_countP]
    rfl
  · rw [smoReadProcTr]
    simp [List.countP_cons, List.countP_map, Function.comp, Ev.isObs]
  · rw [smoReadProcTr]
    have h1 : Ev.isReadOp Ev.buildIds = false := rfl
    have h2 : Ev.isReadOp Ev.waitReady = false := rfl
    have hlen : ((createTargetIDsForConcurrentSMOs T E r1 r2).map
          Ev.readOp).countP Ev.isReadOp =
        ((createTargetIDsForConcurrentSMOs T E r1 r2).map Ev.readOp).length :=
      List.countP_eq_length.mpr (by
        intro a ha
        simp only [List.mem_map] at ha
        obtain ⟨i, _, rfl⟩ := ha
        rfl)
    simp [List.countP_cons, h1, h2, hlen, createTargetIDsForConcurrentSMOs]
    have hall : ∀ a ∈ List.range E,
        (Ev.isReadOp ∘ Ev.readOp ∘
          fun i => T * (1 + r1 i % E) + r2 i % (T / 2)) a = true :=
      fun a _ => rfl
    rw [List.countP_eq_length.mpr hall, List.length_range]

/-! Oracle of the concurrent-SMO stress scenario. -/

theorem smoScanPassCheck_iff :
    ∀ (l : List Nat) (prev : Nat),
      smoScanPassCheck prev l = true ↔ List.Chain (fun a b => a < b) prev l := by
  intro l
  induction l with
  | nil => intro prev; simp [smoScanPassCheck]
  | cons k rest ih =>
    intro prev
    rw [smoScanPassCheck, List.chain_cons]
    simp [ih k]

/-- C8: the read oracle of VerifyConcurrentSMOs accepts every absent result
and accepts a present value exactly when it equals
payloads_.at(id % (kThreadNum / 2)); that index coincides with the worker id
of the unique write worker whose sequence contains the id (write workers have
w_id below kThreadNum / 2, write payloads_.at(w_id), and own exactly the ids
congruent to w_id modulo kThreadNum), so a present value is never foreign or
out of range; and the scan-pass oracle accepts exactly the key sequences that
ascend strictly from the key with id 0, hence every accepted pass is strictly
ascending under the key comparator. -/
theorem smo_oracle_sound (T E : Nat) (hT : 0 < T) (h4 : T % 4 = 0) :
    (∀ id, smoReadCheck T id none = true) ∧
      (∀ id v, smoReadCheck T id (some v) = true ↔ v = id % (T / 2)) ∧
      (∀ (rand : Nat → Nat) (p : AccessPattern) (w : Nat), w < T / 2 →
        ∀ id, id ∈ createTargetIDs T E rand w p →
          id % (T / 2) = w ∧ id % T = w) ∧
      (∀ (rand : Nat → Nat) (w id pay : Nat),
        Ev.writeOp id pay ∈ smoWriteProcTr T E rand w → pay = w) ∧
      (∀ l, smoScanPassOracle l = true ↔
        List.Chain (fun a b => a < b) 0 l) ∧
      (∀ l, smoScanPassOracle l = true → l.Pairwise (fun a b => a < b)) := by
  have hhalf : 0 < T / 2 := by omega
  refine ⟨fun id => rfl, ?_, ?_, ?_, ?_, ?_⟩
  · intro id v
    simp [smoReadCheck]
  · intro rand p w hw id hid
    have hwT : w < T := by omega
    have hmod : id % T = w := ((mem_createTargetIDs_iff hT hwT).mp hid).2.2
    obtain ⟨k, hk, rfl⟩ := mem_createTargetIDs.mp hid
    refine ⟨?_, hmod⟩
    have hTeven : T = 2 * (T / 2) := by omega
    have hsplit : T * (k + 1) + w = w + (T / 2) * (2 * (k + 1)) := by
      calc T * (k + 1) + w = 2 * (T / 2) * (k + 1) + w := by rw [← hTeven]
        _ = w + (T / 2) * (2 * (k + 1)) := by ring
    rw [hsplit, Nat.add_mul_mod_self_left]
    exact Nat.mod_eq_of_lt hw
  · intro rand w id pay hmem
    rw [smoWriteProcTr] at hmem
    simp only [List.mem_cons, List.mem_append, List.mem_map,
      List.mem_singleton] at hmem
    rcases hmem with h | h | ⟨i, _, hi⟩ | h
    · exact absurd h (by simp)
    · exact absurd h (by simp)
    · exact (Ev.writeOp.inj hi.symm).2
    · exact absurd h (by simp)
  · intro l
    rw [smoScanPassOracle]
    exact smoScanPassCheck_iff l 0
  · intro l hl
    have hchain := (smoScanPassCheck_iff l 0).mp hl
    have hpw : List.Pairwise (fun a b => a < b) (0 :: l) :=
      List.chain_iff_pairwise.mp hchain
    exact hpw.of_cons

/-- Witness for C8 at T = 4, E = 1. -/
theorem smo_oracle_sound_witness :
    (0 : Nat) < 4 ∧ 4 % 4 = 0 ∧
      ((∀ id, smoReadCheck 4 id none = true) ∧
        (∀ id v, smoReadCheck 4 id (some v) = true ↔ v = id % (4 / 2)) ∧
        (∀ (rand : Nat → Nat) (p : AccessPattern) (w : Nat), w < 4 / 2 →
          ∀ id, id ∈ createTargetIDs 4 1 rand w p →
            id % (4 / 2) = w ∧ id % 4 = w) ∧
        (∀ (rand : Nat → Nat) (w id pay : Nat),
          Ev.writeOp id pay ∈ smoWriteProcTr 4 1 rand w → pay = w) ∧
        (∀ l, smoScanPassOracle l = true ↔
          List.Chain (fun a b => a < b) 0 l) ∧
        (∀ l, smoScanPassOracle l = true →
          l.Pairwise (fun a b => a < b))) :=
  ⟨by decide, by decide, smo_oracle_sound 4 1 (by decide) (by decide)⟩

/-! Snapshot-scan scenario. -/

/-- C1 counterexample: in VerifySnapshotScanWith the harness forwards the
global epoch only once before capturing the guard and protected-epoch set,
and forwards it twice more after the capture (three forwards in total), so
the scenario does not forward the epoch twice and then capture the guard. -/
theorem snapshot_scan_epoch_order_counterexample :
    forwardsBeforeCapture snapshotScanScript = 1 ∧
      snapshotScanScript.count Ev.forwardEpoch = 3 := by
  constructor
  · rfl
  · rfl

/-- C1 (amended): VerifySnapshotScanWith writes all assigned keys with base
payloads, forwards the epoch once, captures the guard and protected-epoch
set, forwards twice more, and then runs the concurrent scan-versus-write
phase; the snapshot-scan oracle accepts exactly the sequences carrying the
pre-capture payload payloads_.at(key_id % kThreadNum) for every key id from
kThreadNum up to kExecNum * kThreadNum, so on an accepted scan no payload
equals any payload w_id + kThreadNum written by the concurrent writers. -/
theorem snapshot_scan_isolation (T E : Nat) (hT : 0 < T) (hE : 0 < E) :
    (snapshotScanScript.head? = some Ev.phaseWriteAll ∧
        forwardsBeforeCapture snapshotScanScript = 1 ∧
        snapshotScanScript.count Ev.forwardEpoch = 3 ∧
        snapshotScanScript.getLast? = some Ev.phaseConcurrent) ∧
      (∀ seq, snapshotScanOracle T E seq = true ↔
        seq = expectedScanSeq T false T (E * T)) ∧
      (∀ seq, snapshotScanOracle T E seq = true →
        ∀ e ∈ seq, e.2 < T ∧ ∀ w : Nat, e.2 ≠ w + T) ∧
      (∀ (rand : Nat → Nat) (w : Nat) (p : AccessPattern) (id pay : Nat),
        Ev.writeOp id pay ∈ snapshotScanWriterTr T E rand w p .write →
          pay = w + T) := by
  have hbe : T ≤ E * T := Nat.le_mul_of_pos_left T hE
  have hiff : ∀ seq, snapshotScanOracle T E seq = true ↔
      seq = expectedScanSeq T false T (E * T) := by
    intro seq
    rw [snapshotScanOracle]
    exact scanOracleAccepts_iff T false hbe seq
  refine ⟨⟨rfl, rfl, rfl, rfl⟩, hiff, ?_, ?_⟩
  · intro seq hseq e he
    rw [hiff seq] at hseq
    subst hseq
    simp only [expectedScanSeq, expectedFrom, List.mem_map,
      List.mem_range] at he
    obtain ⟨j, _, rfl⟩ := he
    have hm : (T + j) % T < T := Nat.mod_lt _ hT
    constructor
    · simpa [expectedValId] using hm
    · intro w
      simp only [expectedValId, Bool.false_eq_true, if_false]
      omega
  · intro rand w p id pay hmem
    rw [snapshotScanWriterTr] at hmem
    simp only [List.mem_cons, List.mem_map] at hmem
    rcases hmem with h | h | ⟨i, _, hi⟩
    · exact absurd h (by simp)
    · exact absurd h (by simp)
    · exact (Ev.writeOp.inj hi.symm).2

/-- Witness for the amended C1 at T = 2, E = 1. -/
theorem snapshot_scan_isolation_witness :
    (0 : Nat) < 2 ∧ (0 : Nat) < 1 ∧
      ((snapshotScanScript.head? = some Ev.phaseWriteAll ∧
          forwardsBeforeCapture snapshotScanScript = 1 ∧
          snapshotScanScript.count Ev.forwardEpoch = 3 ∧
          snapshotScanScript.getLast? = some Ev.phaseConcurrent) ∧
        (∀ seq, snapshotScanOracle 2 1 seq = true ↔
          seq = expectedScanSeq 2 false 2 (1 * 2)) ∧
        (∀ seq, snapshotScanOracle 2 1 seq = true →
          ∀ e ∈ seq, e.2 < 2 ∧ ∀ w : Nat, e.2 ≠ w + 2) ∧
        (∀ (rand : Nat → Nat) (w : Nat) (p : AccessPattern) (id pay : Nat),
          Ev.writeOp id pay ∈ snapshotScanWriterTr 2 1 rand w p .write →
            pay = w + 2)) :=
  ⟨by decide, by decide, snapshot_scan_isolation 2 1 (by decide) (by decide)⟩

end IndexFixture
